import Mathlib

/-!
# ESP32 multi-channel pulse counter — verification of the counting core

Shallow embedding of the debounced pulse-counting firmware:

* `verify_stability_callback` — the debounce-timer callback
  (src/lib/gpio_pulse/gpio_pulse.c, `verify_stability_callback`);
* `persistLoop` / `persistCheck` — one iteration of the periodic
  persistence task (src/src/main.c, `task_counter`), together with the
  event trace (mutex take/give, NVS saves) it produces;
* `load_counters` / `load_name` — the startup NVS load
  (src/lib/storage/storage.c, `nvs_init_and_load`);
* `save_post_counters` / `save_post_apply` — the counter-mutating part of
  the configuration portal's POST handler
  (src/lib/wifi/wifi.c, `save_post_handler`).

Counter arrays are embedded as functions `Nat → Nat` holding machine
`uint32_t` values (every meaningful entry is `< U32`); arithmetic that the
C code performs on `uint32_t` is written out with explicit `% U32`.
-/

namespace EnergyCounters

/-- `NB_COUNTERS` from config.h: number of pulse channels. -/
def NB_COUNTERS : Nat := 5

/-- `2^32`, the modulus of the `uint32_t` counters. -/
def U32 : Nat := 4294967296

/-- Persistence threshold: `task_counter` saves a channel once
`counters[i] - last_saved[i] >= 100`. -/
def THRESHOLD : Nat := 100

/-- Capacity of the pulse notification queue
(`xQueueCreate(10, sizeof(int))` in `gpio_init_pulses`). -/
def QUEUE_LEN : Nat := 10

/-- The C expression `a - b` on `uint32_t` operands (both `< U32`):
subtraction modulo `2^32`. -/
def sub32 (a b : Nat) : Nat := (a + U32 - b) % U32

/-- Shared mutable state of the counting core: the global `counters`
array, the persistence task's `last_saved` shadow array, the NVS-persisted
`c<i>` values, and the pulse notification queue. -/
structure SysState where
  counters : Nat → Nat
  lastSaved : Nat → Nat
  stored : Nat → Nat
  queue : List Nat

/-- `xQueueSend(pulse_queue, &idx, 0)`: non-blocking enqueue; if the queue
is full the element is dropped. -/
def xQueueSend0 (q : List Nat) (x : Nat) : List Nat :=
  if q.length < QUEUE_LEN then q ++ [x] else q

/-- `verify_stability_callback` (gpio_pulse.c): fires on expiry of a
channel's debounce timer; re-samples the pin (`level`); if HIGH it
increments `counters[idx]` (`uint32_t` wrap) and pushes `idx` into the
pulse queue non-blockingly; if LOW it does nothing. -/
def verify_stability_callback (s : SysState) (idx : Nat) (level : Bool) : SysState :=
  if level then
    { s with counters := Function.update s.counters idx ((s.counters idx + 1) % U32),
             queue := xQueueSend0 s.queue idx }
  else s

/-- C1: on debounce-timer expiry the callback re-samples the pin: if HIGH,
`counters[idx]` is incremented by exactly 1 (mod 2^32), every other
counter is untouched, and `idx` is pushed into the pulse queue with a
non-blocking attempt (dropped when the queue is full); if LOW, the state
is left entirely unchanged. -/
theorem C1_verify_callback_spec (s : SysState) (idx : Nat) (level : Bool)
    (hidx : idx < NB_COUNTERS) :
    (level = true →
      (verify_stability_callback s idx level).counters idx = (s.counters idx + 1) % U32 ∧
      (∀ j, j ≠ idx → (verify_stability_callback s idx level).counters j = s.counters j) ∧
      (s.queue.length < QUEUE_LEN →
        (verify_stability_callback s idx level).queue = s.queue ++ [idx]) ∧
      (¬ s.queue.length < QUEUE_LEN →
        (verify_stability_callback s idx level).queue = s.queue) ∧
      (verify_stability_callback s idx level).lastSaved = s.lastSaved ∧
      (verify_stability_callback s idx level).stored = s.stored) ∧
    (level = false → verify_stability_callback s idx level = s) := by
  constructor
  · intro hl
    subst hl
    simp only [verify_stability_callback, if_pos rfl]
    refine ⟨Function.update_same _ _ _, fun j hj => Function.update_noteq hj _ _, ?_, ?_, rfl, rfl⟩
    · intro hq
      simp [xQueueSend0, hq]
    · intro hq
      simp [xQueueSend0, hq]
  · intro hl
    subst hl
    simp [verify_stability_callback]

/-- Witness for C1 at a concrete state. -/
theorem C1_verify_callback_spec_witness :
    (verify_stability_callback ⟨fun _ => 7, fun _ => 0, fun _ => 0, []⟩ 2 true).counters 2
      = (7 + 1) % U32 := by
  have h := C1_verify_callback_spec ⟨fun _ => 7, fun _ => 0, fun _ => 0, []⟩ 2 true
    (by decide)
  exact (h.1 rfl).1

/-! ## The periodic persistence task (`task_counter`, main.c)

One iteration of the 500 ms loop body: take `counter_mutex`, scan the
channels, call `save_counter_to_nvs(i, counters[i])` and update
`last_saved[i]` for every channel whose unsigned difference reaches the
threshold, give the mutex back.  We model it together with the event
trace it emits (mutex take, each NVS save, mutex give), so that both the
store effect and the lock discipline are visible. -/

/-- Events emitted by one iteration of `task_counter`. -/
inductive Ev where
  | take : Ev
  | save : Nat → Nat → Ev
  | give : Ev
deriving DecidableEq, Repr

/-- Body of the `for` loop in `task_counter` for one index `i`:
if `(counters[i] - last_saved[i]) >= 100` (uint32 arithmetic) then
`save_counter_to_nvs(i, counters[i])` (modelled as a successful NVS
set+commit of key `c<i>`) followed by `last_saved[i] = counters[i]`. -/
def persistStep (p : SysState × List Ev) (i : Nat) : SysState × List Ev :=
  if THRESHOLD ≤ sub32 (p.1.counters i) (p.1.lastSaved i) then
    ({ p.1 with stored := Function.update p.1.stored i (p.1.counters i),
                lastSaved := Function.update p.1.lastSaved i (p.1.counters i) },
     p.2 ++ [Ev.save i (p.1.counters i)])
  else p

/-- The channel scan of one `task_counter` iteration, with its saves. -/
def persistLoop (s : SysState) : SysState × List Ev :=
  (List.range NB_COUNTERS).foldl persistStep (s, [])

/-- State after one `task_counter` iteration. -/
def persistCheck (s : SysState) : SysState := (persistLoop s).1

/-- Full event trace of one `task_counter` iteration:
`xSemaphoreTake`, the saves of the scan, `xSemaphoreGive`. -/
def task_counter_trace (s : SysState) : List Ev :=
  Ev.take :: ((persistLoop s).2 ++ [Ev.give])

theorem persistStep_counters (p : SysState × List Ev) (i : Nat) :
    (persistStep p i).1.counters = p.1.counters := by
  unfold persistStep
  split <;> rfl

theorem foldl_persistStep_counters (L : List Nat) (p : SysState × List Ev) :
    (L.foldl persistStep p).1.counters = p.1.counters := by
  induction L generalizing p with
  | nil => rfl
  | cons j L ih => rw [List.foldl_cons, ih, persistStep_counters]

theorem foldl_persistStep_queue (L : List Nat) (p : SysState × List Ev) :
    (L.foldl persistStep p).1.queue = p.1.queue := by
  induction L generalizing p with
  | nil => rfl
  | cons j L ih =>
    rw [List.foldl_cons, ih]
    unfold persistStep
    split <;> rfl

theorem persistStep_untouched (p : SysState × List Ev) (j i : Nat) (h : j ≠ i) :
    (persistStep p j).1.stored i = p.1.stored i ∧
    (persistStep p j).1.lastSaved i = p.1.lastSaved i := by
  unfold persistStep
  split
  · exact ⟨Function.update_noteq (Ne.symm h) _ _, Function.update_noteq (Ne.symm h) _ _⟩
  · exact ⟨rfl, rfl⟩

theorem foldl_persistStep_untouched (L : List Nat) (p : SysState × List Ev) (i : Nat)
    (h : i ∉ L) :
    (L.foldl persistStep p).1.stored i = p.1.stored i ∧
    (L.foldl persistStep p).1.lastSaved i = p.1.lastSaved i := by
  induction L generalizing p with
  | nil => exact ⟨rfl, rfl⟩
  | cons j L ih =>
    have hji : j ≠ i := fun e => h (e ▸ List.mem_cons_self j L)
    have hiL : i ∉ L := fun e => h (List.mem_cons_of_mem j e)
    rw [List.foldl_cons]
    exact ⟨((ih _ hiL).1).trans (persistStep_untouched p j i hji).1,
           ((ih _ hiL).2).trans (persistStep_untouched p j i hji).2⟩

theorem persistStep_events_mono (p : SysState × List Ev) (i : Nat) (e : Ev)
    (h : e ∈ p.2) : e ∈ (persistStep p i).2 := by
  unfold persistStep
  split
  · exact List.mem_append_left _ h
  · exact h

theorem foldl_persistStep_events_mono (L : List Nat) (p : SysState × List Ev) (e : Ev)
    (h : e ∈ p.2) : e ∈ (L.foldl persistStep p).2 := by
  induction L generalizing p with
  | nil => exact h
  | cons j L ih => exact ih _ (persistStep_events_mono p j e h)

theorem foldl_persistStep_events_src (L : List Nat) (p : SysState × List Ev) (i v : Nat)
    (h : Ev.save i v ∈ (L.foldl persistStep p).2) :
    Ev.save i v ∈ p.2 ∨ i ∈ L := by
  induction L generalizing p with
  | nil => exact Or.inl h
  | cons j L ih =>
    rcases ih _ h with hp | hL
    · revert hp
      unfold persistStep
      split
      · intro hp
        rcases List.mem_append.mp hp with h1 | h2
        · exact Or.inl h1
        · simp only [List.mem_singleton, Ev.save.injEq] at h2
          exact Or.inr (h2.1 ▸ List.mem_cons_self j L)
      · exact fun hp => Or.inl hp
    · exact Or.inr (List.mem_cons_of_mem j hL)

/-- All events produced by the scan are `save` events. -/
theorem foldl_persistStep_events_shape (L : List Nat) (p : SysState × List Ev) (e : Ev)
    (h : e ∈ (L.foldl persistStep p).2) :
    e ∈ p.2 ∨ ∃ i v, e = Ev.save i v := by
  induction L generalizing p with
  | nil => exact Or.inl h
  | cons j L ih =>
    rcases ih _ h with hp | hs
    · revert hp
      unfold persistStep
      split
      · intro hp
        rcases List.mem_append.mp hp with h1 | h2
        · exact Or.inl h1
        · exact Or.inr ⟨j, _, List.mem_singleton.mp h2⟩
      · exact fun hp => Or.inl hp
    · exact Or.inr hs

/-- Behaviour of the scan at one in-range channel, proved by splitting
`List.range NB_COUNTERS` around that channel. -/
theorem persistLoop_at_index (s : SysState) (Lpre Lpost : List Nat) (i : Nat)
    (hpre : i ∉ Lpre) (hpost : i ∉ Lpost)
    (hR : List.range NB_COUNTERS = Lpre ++ i :: Lpost) :
    (THRESHOLD ≤ sub32 (s.counters i) (s.lastSaved i) →
      (persistCheck s).stored i = s.counters i ∧
      (persistCheck s).lastSaved i = s.counters i ∧
      Ev.save i (s.counters i) ∈ (persistLoop s).2) ∧
    (sub32 (s.counters i) (s.lastSaved i) < THRESHOLD →
      (persistCheck s).stored i = s.stored i ∧
      (persistCheck s).lastSaved i = s.lastSaved i ∧
      ∀ v, Ev.save i v ∉ (persistLoop s).2) := by
  have hloop : persistLoop s
      = Lpost.foldl persistStep (persistStep (Lpre.foldl persistStep (s, [])) i) := by
    rw [persistLoop, hR, List.foldl_append, List.foldl_cons]
  set q := Lpre.foldl persistStep (s, []) with hq
  have hqc : q.1.counters = s.counters := foldl_persistStep_counters Lpre _
  have hqi := foldl_persistStep_untouched Lpre (s, []) i hpre
  have hcond : (THRESHOLD ≤ sub32 (q.1.counters i) (q.1.lastSaved i))
      ↔ (THRESHOLD ≤ sub32 (s.counters i) (s.lastSaved i)) := by
    rw [hqc, hqi.2]
  constructor
  · intro hge
    have hstep : persistStep q i
        = ({ q.1 with stored := Function.update q.1.stored i (q.1.counters i),
                      lastSaved := Function.update q.1.lastSaved i (q.1.counters i) },
           q.2 ++ [Ev.save i (q.1.counters i)]) := by
      unfold persistStep
      rw [if_pos (hcond.mpr hge)]
    have hpostu := foldl_persistStep_untouched Lpost (persistStep q i) i hpost
    refine ⟨?_, ?_, ?_⟩
    · rw [persistCheck, hloop, hpostu.1, hstep]
      simp [hqc, Function.update_same]
    · rw [persistCheck, hloop, hpostu.2, hstep]
      simp [hqc, Function.update_same]
    · rw [hloop]
      apply foldl_persistStep_events_mono
      rw [hstep]
      simp [hqc]
  · intro hlt
    have hstep : persistStep q i = q := by
      unfold persistStep
      rw [if_neg (by rw [hcond]; omega)]
    refine ⟨?_, ?_, ?_⟩
    · rw [persistCheck, hloop, hstep, (foldl_persistStep_untouched Lpost q i hpost).1, hqi.1]
    · rw [persistCheck, hloop, hstep, (foldl_persistStep_untouched Lpost q i hpost).2, hqi.2]
    · intro v hv
      rw [hloop, hstep] at hv
      rcases foldl_persistStep_events_src Lpost q i v hv with h1 | h2
      · rcases foldl_persistStep_events_src Lpre (s, []) i v h1 with h3 | h4
        · simp at h3
        · exact hpre h4
      · exact hpost h2

/-- C2: in each run of the periodic persistence check, channel `i` is
written to NVS if and only if `counters[i] - last_saved[i] >= 100` in
unsigned 32-bit arithmetic; every issued write stores `counters[i]` and
sets `last_saved[i] = counters[i]`; channels below the threshold keep both
their stored value and their watermark. -/
theorem C2_persist_threshold (s : SysState) (i : Nat) (hi : i < NB_COUNTERS) :
    (THRESHOLD ≤ sub32 (s.counters i) (s.lastSaved i) →
      (persistCheck s).stored i = s.counters i ∧
      (persistCheck s).lastSaved i = s.counters i ∧
      Ev.save i (s.counters i) ∈ (persistLoop s).2) ∧
    (sub32 (s.counters i) (s.lastSaved i) < THRESHOLD →
      (persistCheck s).stored i = s.stored i ∧
      (persistCheck s).lastSaved i = s.lastSaved i ∧
      ∀ v, Ev.save i v ∉ (persistLoop s).2) := by
  have hi5 : i < 5 := hi
  interval_cases i
  · exact persistLoop_at_index s [] [1, 2, 3, 4] 0 (by decide) (by decide) (by decide)
  · exact persistLoop_at_index s [0] [2, 3, 4] 1 (by decide) (by decide) (by decide)
  · exact persistLoop_at_index s [0, 1] [3, 4] 2 (by decide) (by decide) (by decide)
  · exact persistLoop_at_index s [0, 1, 2] [4] 3 (by decide) (by decide) (by decide)
  · exact persistLoop_at_index s [0, 1, 2, 3] [] 4 (by decide) (by decide) (by decide)

/-- A concrete state exercising both branches of C2: channel 0 is 150
pulses past its watermark, channel 3 only 3. -/
def c2State : SysState :=
  ⟨fun j => if j = 0 then 150 else 3, fun _ => 0, fun _ => 9, []⟩

/-- Witness for C2: on `c2State`, channel 0 is persisted (watermark moves
to 150) and channel 3 is left alone (stored value stays 9). -/
theorem C2_persist_threshold_witness :
    (persistCheck c2State).stored 0 = 150 ∧
    (persistCheck c2State).lastSaved 0 = 150 ∧
    (persistCheck c2State).stored 3 = 9 ∧
    (persistCheck c2State).lastSaved 3 = 0 := by
  refine ⟨?_, ?_, ?_, ?_⟩
  · exact ((C2_persist_threshold c2State 0 (by decide)).1 (by decide)).1
  · exact ((C2_persist_threshold c2State 0 (by decide)).1 (by decide)).2.1
  · exact ((C2_persist_threshold c2State 3 (by decide)).2 (by decide)).1
  · exact ((C2_persist_threshold c2State 3 (by decide)).2 (by decide)).2.1

/-! ## Lock discipline of `task_counter` (claim C3)

In main.c the loop takes `counter_mutex`, runs the whole scan — including
every `save_counter_to_nvs` call — and only then gives the mutex back, so
the blocking NVS write happens with the lock held, not released. -/

/-- Is this event the mutex take? -/
def isTake : Ev → Bool
  | .take => true
  | _ => false

/-- Is this event the mutex give? -/
def isGive : Ev → Bool
  | .give => true
  | _ => false

/-- Whether `counter_mutex` is held when the event at position `k` of a
trace runs: more takes than gives strictly before it. -/
def heldBefore (tr : List Ev) (k : Nat) : Bool :=
  Nat.blt ((tr.take k).countP isGive) ((tr.take k).countP isTake)

/-- A state in which every channel is 100 pulses past its watermark, so
every channel gets persisted on the next `task_counter` iteration. -/
def c3State : SysState :=
  ⟨fun _ => 100, fun _ => 0, fun _ => 0, []⟩

/-- C3 counterexample: on `c3State` the trace of one `task_counter`
iteration performs the NVS save of channel 0 at position 1, and the mutex
is held there — the persistence I/O does *not* happen with the lock
released, refuting the claim as stated. -/
theorem C3_counterexample :
    (task_counter_trace c3State)[1]? = some (Ev.save 0 100) ∧
    heldBefore (task_counter_trace c3State) 1 = true := by
  constructor
  · rfl
  · rfl

theorem heldBefore_take_saves_give (evs : List Ev)
    (hall : ∀ e ∈ evs, ∃ i v, e = Ev.save i v) (k i v : Nat)
    (h : (Ev.take :: (evs ++ [Ev.give]))[k]? = some (Ev.save i v)) :
    heldBefore (Ev.take :: (evs ++ [Ev.give])) k = true := by
  have hcount : ∀ p : Ev → Bool, (∀ i v, p (Ev.save i v) = false) →
      ∀ n, (evs.take n).countP p = 0 := by
    intro p hp n
    rw [List.countP_eq_zero]
    intro e he
    rcases hall e (List.take_subset _ _ he) with ⟨i, v, rfl⟩
    simp [hp]
  match k with
  | 0 => simp at h
  | Nat.succ k =>
    have hrest : (evs ++ [Ev.give])[k]? = some (Ev.save i v) := by
      simpa using h
    have hk : k < evs.length := by
      by_contra hge
      push_neg at hge
      rw [List.getElem?_append_right hge] at hrest
      rcases Nat.lt_or_ge (k - evs.length) 1 with hm | hm
      · interval_cases h : k - evs.length
        · simp at hrest
      · rw [List.getElem?_eq_none (by simpa using hm)] at hrest
        exact Option.noConfusion hrest
    have htake : (Ev.take :: (evs ++ [Ev.give])).take (k + 1)
        = Ev.take :: evs.take k := by
      rw [List.take_cons (Nat.succ_pos k), Nat.succ_sub_one]
      rw [List.take_append_of_le_length (Nat.le_of_lt hk)]
    rw [heldBefore, htake]
    have hg : (evs.take k).countP isGive = 0 := hcount isGive (fun _ _ => rfl) k
    have ht : (evs.take k).countP isTake = 0 := hcount isTake (fun _ _ => rfl) k
    simp [List.countP_cons, hg, ht, isGive, isTake, Nat.blt]

/-- C3 amended: in every iteration of the periodic persistence task, each
NVS save is performed while `counter_mutex` is held (the take precedes
it and the give follows it), i.e. the lock *is* held across the blocking
persistence write. -/
theorem C3_amended_save_under_lock (s : SysState) (k i v : Nat)
    (h : (task_counter_trace s)[k]? = some (Ev.save i v)) :
    heldBefore (task_counter_trace s) k = true := by
  refine heldBefore_take_saves_give (persistLoop s).2 ?_ k i v h
  intro e he
  rcases foldl_persistStep_events_shape (List.range NB_COUNTERS) (s, []) e he with h0 | hs
  · simp at h0
  · exact hs

/-- Witness for the amended C3 at the concrete state `c3State`. -/
theorem C3_amended_save_under_lock_witness :
    heldBefore (task_counter_trace c3State) 1 = true :=
  C3_amended_save_under_lock c3State 1 0 100 (by rfl)

/-! ## The configuration portal's save handler (`save_post_handler`, wifi.c)

The POST body is split into `key=value` pairs; each value is URL-decoded;
a key `c<i>` updates `counters[i]` (empty value ⇒ 0, otherwise
`strtoul(decoded, NULL, 10)`); afterwards every counter is written back to
NVS.  We model the handler on the already-decoded key/value pairs. -/

/-- The key the handler compares against for counter `i`
(`snprintf(expected, sizeof(expected), "c%d", i)`). -/
def ckey (i : Nat) : String := "c" ++ toString i

/-- Value of the longest decimal-digit prefix of a character list. -/
def digitsVal : List Char → Nat → Nat
  | c :: rest, acc => if c.isDigit then digitsVal rest (acc * 10 + (c.toNat - 48)) else acc
  | [], acc => acc

/-- `strtoul(s, NULL, 10)` on a 32-bit `unsigned long`, for the
digit-prefix payloads the number form submits: value of the leading
decimal digits, clamped to `ULONG_MAX` on overflow (C99 strtoul);
leading-whitespace/sign handling is not exercised by these inputs. -/
def strtoul10 (s : String) : Nat := min (digitsVal s.data 0) (U32 - 1)

/-- The inner `for (i...) if (strcmp(key, expected) == 0)` loop of
`save_post_handler` for one decoded pair: an empty decoded value resets
`counters[i]` to 0, anything else stores `strtoul(decoded, NULL, 10)`. -/
def applyCounterField (cs : Nat → Nat) (key decoded : String) : Nat → Nat :=
  (List.range NB_COUNTERS).foldl
    (fun c i =>
      if key = ckey i then
        (if decoded = "" then Function.update c i 0
         else Function.update c i (strtoul10 decoded))
      else c) cs

/-- Effect of `save_post_handler` on the `counters` array: the outer
`strtok_r` loop over all decoded key/value pairs. -/
def save_post_counters (cs : Nat → Nat) (fields : List (String × String)) : Nat → Nat :=
  fields.foldl (fun c kv => applyCounterField c kv.1 kv.2) cs

/-- Full effect of `save_post_handler` on the shared state: update the
counters, then write every counter back to the NVS `counters` namespace
(`nvs_set_u32` of each `c<i>` followed by one commit, modelled as
succeeding). -/
def save_post_apply (s : SysState) (fields : List (String × String)) : SysState :=
  let cs := save_post_counters s.counters fields
  { s with counters := cs,
           stored := fun i => if i < NB_COUNTERS then cs i else s.stored i }

/-! ## System steps (claim C4) -/

/-- One step of the running system, as seen by the counter array: a
debounce-timer expiry, an iteration of the persistence task, an MQTT
publication (reads only), or a configuration-save command. -/
inductive SysStep where
  | pulse (idx : Nat) (level : Bool)
  | persistTick : SysStep
  | mqttTick : SysStep
  | configSave (fields : List (String × String))

/-- Effect of one system step on the shared state. -/
def sysStep (s : SysState) : SysStep → SysState
  | .pulse idx level => verify_stability_callback s idx level
  | .persistTick => persistCheck s
  | .mqttTick => s
  | .configSave fields => save_post_apply s fields

theorem persistCheck_counters (s : SysState) :
    (persistCheck s).counters = s.counters := by
  unfold persistCheck persistLoop
  exact foldl_persistStep_counters _ _

/-- C4: across every system step that is not a configuration-save
(force-set/reset) command, no counter decreases; the only exception is
the accepted unsigned wrap of an increment at `2^32 - 1`. -/
theorem C4_counters_monotone (s : SysState) (st : SysStep) (i : Nat)
    (hi : i < NB_COUNTERS) (hc : s.counters i < U32)
    (hns : ∀ fields, st ≠ SysStep.configSave fields) :
    s.counters i ≤ (sysStep s st).counters i ∨
    (s.counters i = U32 - 1 ∧ (sysStep s st).counters i = 0) := by
  cases st with
  | pulse idx level =>
    cases level with
    | false => exact Or.inl (Nat.le_refl _)
    | true =>
      have hstep : (sysStep s (SysStep.pulse idx true)).counters
          = Function.update s.counters idx ((s.counters idx + 1) % U32) := rfl
      rw [hstep]
      by_cases hij : i = idx
      · subst hij
        rw [Function.update_same]
        rcases Nat.lt_or_ge (s.counters i + 1) U32 with hlt | hge
        · rw [Nat.mod_eq_of_lt hlt]
          exact Or.inl (Nat.le_succ _)
        · have heq : s.counters i + 1 = U32 := Nat.le_antisymm hc hge
          refine Or.inr ⟨by omega, ?_⟩
          rw [heq, Nat.mod_self]
      · rw [Function.update_noteq hij]
        exact Or.inl (Nat.le_refl _)
  | persistTick =>
    rw [show (sysStep s SysStep.persistTick).counters = s.counters from
      persistCheck_counters s]
    exact Or.inl (Nat.le_refl _)
  | mqttTick => exact Or.inl (Nat.le_refl _)
  | configSave fields => exact absurd rfl (hns fields)

/-- Witness for C4 at a concrete increment step. -/
theorem C4_counters_monotone_witness :
    (⟨fun _ => 41, fun _ => 0, fun _ => 0, []⟩ : SysState).counters 0
        ≤ (sysStep ⟨fun _ => 41, fun _ => 0, fun _ => 0, []⟩ (SysStep.pulse 0 true)).counters 0 ∨
    ((⟨fun _ => 41, fun _ => 0, fun _ => 0, []⟩ : SysState).counters 0 = U32 - 1 ∧
      (sysStep ⟨fun _ => 41, fun _ => 0, fun _ => 0, []⟩ (SysStep.pulse 0 true)).counters 0 = 0) :=
  C4_counters_monotone ⟨fun _ => 41, fun _ => 0, fun _ => 0, []⟩ (SysStep.pulse 0 true) 0
    (by decide) (by decide)
    (fun fields h => SysStep.noConfusion h)

/-! ## Reachable states under increments and persistence runs (claim C5) -/

/-- Boot state: `nvs_init_and_load` copies every persisted `c<i>` into
`counters[i]` (a missing key behaves like a stored 0), `task_counter`
starts with `last_saved` all zero, and the queue is empty. -/
def bootState (p : Nat → Nat) : SysState :=
  { counters := p, lastSaved := fun _ => 0, stored := p, queue := [] }

/-- The two kinds of steps the claim interleaves: a confirmed pulse on a
channel, and one run of the periodic persistence check. -/
inductive CStep where
  | inc (i : Nat)
  | chk : CStep
deriving DecidableEq, Repr

/-- Effect of one interleaved step. -/
def applyCStep (s : SysState) : CStep → SysState
  | .inc i => verify_stability_callback s i true
  | .chk => persistCheck s

/-- State reached from the boot state after a sequence of steps. -/
def runFrom (p : Nat → Nat) (tr : List CStep) : SysState :=
  tr.foldl applyCStep (bootState p)

/-- Number of confirmed pulses of channel `i` in a step sequence. -/
def incCount (tr : List CStep) (i : Nat) : Nat :=
  tr.countP (fun st => decide (st = CStep.inc i))

theorem incCount_append (tr tr' : List CStep) (i : Nat) :
    incCount (tr ++ tr') i = incCount tr i + incCount tr' i :=
  List.countP_append _ _ _

/-- Pointwise store/watermark behaviour of one persistence run, shared by
several claims. -/
theorem persistCheck_pointwise (s : SysState) (i : Nat) (hi : i < NB_COUNTERS) :
    (THRESHOLD ≤ sub32 (s.counters i) (s.lastSaved i) →
      (persistCheck s).stored i = s.counters i ∧
      (persistCheck s).lastSaved i = s.counters i) ∧
    (sub32 (s.counters i) (s.lastSaved i) < THRESHOLD →
      (persistCheck s).stored i = s.stored i ∧
      (persistCheck s).lastSaved i = s.lastSaved i) := by
  have hi5 : i < 5 := hi
  interval_cases i
  · have h := persistLoop_at_index s [] [1, 2, 3, 4] 0 (by decide) (by decide) (by decide)
    exact ⟨fun hge => ⟨(h.1 hge).1, (h.1 hge).2.1⟩, fun hlt => ⟨(h.2 hlt).1, (h.2 hlt).2.1⟩⟩
  · have h := persistLoop_at_index s [0] [2, 3, 4] 1 (by decide) (by decide) (by decide)
    exact ⟨fun hge => ⟨(h.1 hge).1, (h.1 hge).2.1⟩, fun hlt => ⟨(h.2 hlt).1, (h.2 hlt).2.1⟩⟩
  · have h := persistLoop_at_index s [0, 1] [3, 4] 2 (by decide) (by decide) (by decide)
    exact ⟨fun hge => ⟨(h.1 hge).1, (h.1 hge).2.1⟩, fun hlt => ⟨(h.2 hlt).1, (h.2 hlt).2.1⟩⟩
  · have h := persistLoop_at_index s [0, 1, 2] [4] 3 (by decide) (by decide) (by decide)
    exact ⟨fun hge => ⟨(h.1 hge).1, (h.1 hge).2.1⟩, fun hlt => ⟨(h.2 hlt).1, (h.2 hlt).2.1⟩⟩
  · have h := persistLoop_at_index s [0, 1, 2, 3] [] 4 (by decide) (by decide) (by decide)
    exact ⟨fun hge => ⟨(h.1 hge).1, (h.1 hge).2.1⟩, fun hlt => ⟨(h.2 hlt).1, (h.2 hlt).2.1⟩⟩

theorem runFrom_append_singleton (p : Nat → Nat) (tr : List CStep) (st : CStep) :
    runFrom p (tr ++ [st]) = applyCStep (runFrom p tr) st := by
  unfold runFrom
  rw [List.foldl_append, List.foldl_cons, List.foldl_nil]

/-- As long as channel `i` has not wrapped, its in-memory counter equals
its boot value plus the number of its confirmed pulses. -/
theorem runFrom_counters (p : Nat → Nat) (tr : List CStep) (i : Nat)
    (hw : p i + incCount tr i < U32) :
    (runFrom p tr).counters i = p i + incCount tr i := by
  induction tr using List.reverseRecOn with
  | nil => simp [runFrom, bootState, incCount]
  | append_singleton tr st ih =>
    rw [runFrom_append_singleton]
    have hmono : incCount tr i ≤ incCount (tr ++ [st]) i := by
      rw [incCount_append]
      exact Nat.le_add_right _ _
    have ih' := ih (Nat.lt_of_le_of_lt (Nat.add_le_add_left hmono _) hw)
    cases st with
    | chk =>
      rw [show applyCStep (runFrom p tr) CStep.chk = persistCheck (runFrom p tr) from rfl,
        persistCheck_counters, ih', incCount_append]
      simp [incCount]
    | inc j =>
      have hstep : (applyCStep (runFrom p tr) (CStep.inc j)).counters
          = Function.update (runFrom p tr).counters j
              (((runFrom p tr).counters j + 1) % U32) := rfl
      rw [hstep]
      by_cases hij : i = j
      · subst hij
        rw [Function.update_same, ih', incCount_append]
        have hone : incCount [CStep.inc i] i = 1 := by simp [incCount]
        rw [hone]
        rw [incCount_append, hone] at hw
        rw [Nat.mod_eq_of_lt (by omega)]
        omega
      · rw [Function.update_noteq hij, ih', incCount_append]
        have hzero : incCount [CStep.inc j] i = 0 := by
          simp [incCount]
          exact fun h => absurd h.symm hij
        rw [hzero]
        omega

theorem sub32_of_le (a b : Nat) (hba : b ≤ a) (ha : a < U32) : sub32 a b = a - b := by
  have h1 : a + U32 - b = (a - b) + U32 := by omega
  rw [sub32, h1, Nat.add_mod_right]
  exact Nat.mod_eq_of_lt (by omega)

/-- Invariant along any interleaving of confirmed pulses and persistence
runs (while no counter has wrapped): the watermark never exceeds the
persisted value, and the persisted value never exceeds the live counter. -/
theorem runFrom_invariant (p : Nat → Nat) (tr : List CStep) (i : Nat)
    (hi : i < NB_COUNTERS)
    (hw : ∀ j, j < NB_COUNTERS → p j + incCount tr j < U32) :
    (runFrom p tr).lastSaved i ≤ (runFrom p tr).stored i ∧
    (runFrom p tr).stored i ≤ (runFrom p tr).counters i := by
  induction tr using List.reverseRecOn with
  | nil => exact ⟨Nat.zero_le _, Nat.le_refl _⟩
  | append_singleton tr st ih =>
    have hw' : ∀ j, j < NB_COUNTERS → p j + incCount tr j < U32 := by
      intro j hj
      have h1 := hw j hj
      have h2 : incCount tr j ≤ incCount (tr ++ [st]) j := by
        rw [incCount_append]
        exact Nat.le_add_right _ _
      omega
    have ih' := ih hw'
    rw [runFrom_append_singleton]
    cases st with
    | inc j =>
      have hsl : (applyCStep (runFrom p tr) (CStep.inc j)).stored
          = (runFrom p tr).stored := rfl
      have hls : (applyCStep (runFrom p tr) (CStep.inc j)).lastSaved
          = (runFrom p tr).lastSaved := rfl
      have hcs : (applyCStep (runFrom p tr) (CStep.inc j)).counters
          = Function.update (runFrom p tr).counters j
              (((runFrom p tr).counters j + 1) % U32) := rfl
      rw [hsl, hls, hcs]
      by_cases hij : i = j
      · subst hij
        rw [Function.update_same]
        have hold := runFrom_counters p tr i (hw' i hi)
        have hnew : ((runFrom p tr).counters i + 1) % U32
            = (runFrom p tr).counters i + 1 := by
          rw [hold]
          have h1 := hw i hi
          rw [incCount_append] at h1
          have hone : incCount [CStep.inc i] i = 1 := by simp [incCount]
          rw [hone] at h1
          exact Nat.mod_eq_of_lt (by omega)
        rw [hnew]
        exact ⟨ih'.1, Nat.le_trans ih'.2 (Nat.le_succ _)⟩
      · rw [Function.update_noteq hij]
        exact ih'
    | chk =>
      have hpc : applyCStep (runFrom p tr) CStep.chk = persistCheck (runFrom p tr) := rfl
      rw [hpc]
      have hpw := persistCheck_pointwise (runFrom p tr) i hi
      have hcc : (persistCheck (runFrom p tr)).counters i = (runFrom p tr).counters i := by
        rw [persistCheck_counters]
      rcases Nat.lt_or_ge
          (sub32 ((runFrom p tr).counters i) ((runFrom p tr).lastSaved i)) THRESHOLD
        with hlt | hge
      · rcases hpw.2 hlt with ⟨hs, hl⟩
        rw [hs, hl, hcc]
        exact ih'
      · rcases hpw.1 hge with ⟨hs, hl⟩
        rw [hs, hl, hcc]
        exact ⟨Nat.le_refl _, Nat.le_refl _⟩

/-- 99 confirmed pulses on channel 0 with persistence runs interleaved
(each run sees a difference below the threshold and writes nothing),
then a 100th pulse: the live counter is 100 ahead of the store. -/
def c5Trace : List CStep :=
  List.replicate 50 (CStep.inc 0) ++ [CStep.chk]
    ++ List.replicate 49 (CStep.inc 0) ++ [CStep.chk, CStep.inc 0]

set_option maxRecDepth 8000 in
set_option maxHeartbeats 1600000 in
/-- C5 counterexample: after `c5Trace` from an all-zero store, channel 0
reads 100 in memory while the store still holds 0 — an unclean restart
here loses 100 pulses, exceeding the claimed bound of THRESHOLD - 1 = 99.
The claim fails at reachable states between persistence runs. -/
theorem C5_counterexample :
    (runFrom (fun _ => 0) c5Trace).counters 0 = 100 ∧
    (runFrom (fun _ => 0) c5Trace).stored 0 = 0 ∧
    ¬ ((runFrom (fun _ => 0) c5Trace).counters 0
        ≤ (runFrom (fun _ => 0) c5Trace).stored 0 + (THRESHOLD - 1)) := by
  refine ⟨by decide, by decide, by decide⟩

/-- C5 amended: the claimed bound holds at every state *immediately after
a run of the persistence check* (and only modulo the accepted 2^32 wrap):
after any interleaving of confirmed pulses and persistence runs that ends
with a run, each channel's persisted value is at most the in-memory value
and lags it by at most THRESHOLD - 1 = 99, so an unclean restart at such
a state recovers a value within 99 of the true one.  Between runs the
difference can reach 100 or more. -/
theorem C5_amended_bound_after_check (p : Nat → Nat) (tr : List CStep) (i : Nat)
    (hi : i < NB_COUNTERS)
    (hw : ∀ j, j < NB_COUNTERS → p j + incCount tr j < U32) :
    (runFrom p (tr ++ [CStep.chk])).stored i
        ≤ (runFrom p (tr ++ [CStep.chk])).counters i ∧
    (runFrom p (tr ++ [CStep.chk])).counters i
        ≤ (runFrom p (tr ++ [CStep.chk])).stored i + (THRESHOLD - 1) := by
  have hinv := runFrom_invariant p tr i hi hw
  rw [runFrom_append_singleton]
  rw [show applyCStep (runFrom p tr) CStep.chk = persistCheck (runFrom p tr) from rfl]
  have hcc : (persistCheck (runFrom p tr)).counters i = (runFrom p tr).counters i := by
    rw [persistCheck_counters]
  have hC : (runFrom p tr).counters i < U32 := by
    rw [runFrom_counters p tr i (hw i hi)]
    exact hw i hi
  have hls : (runFrom p tr).lastSaved i ≤ (runFrom p tr).counters i :=
    Nat.le_trans hinv.1 hinv.2
  have hsub : sub32 ((runFrom p tr).counters i) ((runFrom p tr).lastSaved i)
      = (runFrom p tr).counters i - (runFrom p tr).lastSaved i :=
    sub32_of_le _ _ hls hC
  have hpw := persistCheck_pointwise (runFrom p tr) i hi
  have hT : THRESHOLD = 100 := rfl
  rcases Nat.lt_or_ge
      (sub32 ((runFrom p tr).counters i) ((runFrom p tr).lastSaved i)) THRESHOLD
    with hlt | hge
  · rcases hpw.2 hlt with ⟨hs, _⟩
    rw [hcc, hs]
    rw [hsub, hT] at hlt
    have h1 := hinv.1
    have h2 := hinv.2
    rw [hT]
    exact ⟨h2, by omega⟩
  · rcases hpw.1 hge with ⟨hs, _⟩
    rw [hcc, hs]
    exact ⟨Nat.le_refl _, Nat.le_add_right _ _⟩

/-- Witness for the amended C5. -/
theorem C5_amended_bound_after_check_witness :
    (runFrom (fun _ => 0) ([CStep.inc 0] ++ [CStep.chk])).stored 0
        ≤ (runFrom (fun _ => 0) ([CStep.inc 0] ++ [CStep.chk])).counters 0 ∧
    (runFrom (fun _ => 0) ([CStep.inc 0] ++ [CStep.chk])).counters 0
        ≤ (runFrom (fun _ => 0) ([CStep.inc 0] ++ [CStep.chk])).stored 0 + (THRESHOLD - 1) :=
  C5_amended_bound_after_check (fun _ => 0) [CStep.inc 0] 0 (by decide)
    (by decide)

/-! ## Which accessors take the counter mutex (claim C6)

`task_counter` and `task_mqtt` (main.c) bracket their scans of
`counters[]` with `xSemaphoreTake(counter_mutex, portMAX_DELAY)` /
`xSemaphoreGive(counter_mutex)`.  The configuration portal's handlers
(`config_get_handler`, `save_post_handler` in wifi.c) read and write
`counters[]` but contain no semaphore call at all. -/

/-- Counter-array access events of a task, with the mutex operations. -/
inductive AccEv where
  | take : AccEv
  | give : AccEv
  | rd (i : Nat)
  | wr (i : Nat)
deriving DecidableEq, Repr

/-- Is this event the mutex take? -/
def isTakeA : AccEv → Bool
  | .take => true
  | _ => false

/-- Is this event the mutex give? -/
def isGiveA : AccEv → Bool
  | .give => true
  | _ => false

/-- Whether `counter_mutex` is held when the event at position `k` runs. -/
def heldA (tr : List AccEv) (k : Nat) : Bool :=
  Nat.blt ((tr.take k).countP isGiveA) ((tr.take k).countP isTakeA)

/-- Counter accesses of one `task_counter` iteration: the mutex take, one
read of `counters[i]` per channel of the scan, the mutex give. -/
def task_counter_accesses : List AccEv :=
  AccEv.take :: ((List.range NB_COUNTERS).map AccEv.rd ++ [AccEv.give])

/-- Counter accesses of one `task_mqtt` publication round: the mutex
take, one read of `counters[i]` per published channel, the mutex give. -/
def task_mqtt_accesses : List AccEv :=
  AccEv.take :: ((List.range NB_COUNTERS).map AccEv.rd ++ [AccEv.give])

/-- Counter accesses of `save_post_handler`: one write of `counters[i]`
for every submitted `c<i>` field, then one read of each `counters[i]` for
the NVS write-back — and no mutex operation anywhere. -/
def save_post_accesses (fields : List (String × String)) : List AccEv :=
  (fields.flatMap fun kv =>
    (List.range NB_COUNTERS).flatMap fun i =>
      if kv.1 = ckey i then [AccEv.wr i] else [])
  ++ (List.range NB_COUNTERS).map AccEv.rd

/-- Counter accesses of `config_get_handler`: one read of each
`counters[i]` to render the form value — with no mutex operation. -/
def config_get_accesses : List AccEv :=
  (List.range NB_COUNTERS).map AccEv.rd

/-- Every counter read/write in the trace runs with the mutex held. -/
def accessesLocked (tr : List AccEv) : Prop :=
  ∀ k i, (tr[k]? = some (AccEv.rd i) ∨ tr[k]? = some (AccEv.wr i)) →
    heldA tr k = true

/-- The mutex is held at no position of the trace. -/
def accessesUnlocked (tr : List AccEv) : Prop :=
  ∀ k, heldA tr k = false

/-- C6 counterexample: the configuration-save handler writes
`counters[0]` (its very first counter access, position 0) without holding
`counter_mutex`, refuting the claim that every task-context access of the
counter array happens under the lock. -/
theorem C6_counterexample :
    ¬ accessesLocked (save_post_accesses [(ckey 0, "5")]) := by
  intro h
  have h0 := h 0 0 (Or.inr (by decide))
  exact absurd h0 (by decide)

theorem heldA_mid (evs : List AccEv)
    (hall : ∀ e ∈ evs, isTakeA e = false ∧ isGiveA e = false) (k i : Nat)
    (h : (AccEv.take :: (evs ++ [AccEv.give]))[k]? = some (AccEv.rd i) ∨
         (AccEv.take :: (evs ++ [AccEv.give]))[k]? = some (AccEv.wr i)) :
    heldA (AccEv.take :: (evs ++ [AccEv.give])) k = true := by
  have hcount : ∀ p : AccEv → Bool, (∀ e ∈ evs, p e = false) →
      ∀ n, (evs.take n).countP p = 0 := by
    intro p hp n
    rw [List.countP_eq_zero]
    intro e he
    rw [hp e (List.take_subset _ _ he)]
    exact Bool.false_ne_true
  match k with
  | 0 =>
    rcases h with h | h <;> simp at h
  | Nat.succ k =>
    have hrest : (evs ++ [AccEv.give])[k]? = some (AccEv.rd i) ∨
        (evs ++ [AccEv.give])[k]? = some (AccEv.wr i) := by
      rcases h with h | h
      · exact Or.inl (by simpa using h)
      · exact Or.inr (by simpa using h)
    have hk : k < evs.length := by
      by_contra hge
      push_neg at hge
      rcases hrest with h' | h' <;>
      · rw [List.getElem?_append_right hge] at h'
        rcases Nat.lt_or_ge (k - evs.length) 1 with hm | hm
        · interval_cases hKL : k - evs.length
          · simp at h'
        · rw [List.getElem?_eq_none (by simpa using hm)] at h'
          exact Option.noConfusion h'
    have htake : (AccEv.take :: (evs ++ [AccEv.give])).take (k + 1)
        = AccEv.take :: evs.take k := by
      rw [List.take_cons (Nat.succ_pos k), Nat.succ_sub_one]
      rw [List.take_append_of_le_length (Nat.le_of_lt hk)]
    rw [heldA, htake]
    have hg : (evs.take k).countP isGiveA = 0 :=
      hcount isGiveA (fun e he => (hall e he).2) k
    have ht : (evs.take k).countP isTakeA = 0 :=
      hcount isTakeA (fun e he => (hall e he).1) k
    simp [List.countP_cons, hg, ht, isGiveA, isTakeA, Nat.blt]

theorem heldA_eq_false_of_no_take (tr : List AccEv)
    (h : ∀ e ∈ tr, isTakeA e = false) (k : Nat) : heldA tr k = false := by
  have ht : (tr.take k).countP isTakeA = 0 :=
    List.countP_eq_zero.mpr
      (fun e he => by rw [h e (List.take_subset _ _ he)]; exact Bool.false_ne_true)
  rw [heldA, ht]
  rfl

theorem save_post_accesses_no_take (fields : List (String × String)) :
    ∀ e ∈ save_post_accesses fields, isTakeA e = false := by
  intro e he
  rw [save_post_accesses] at he
  rcases List.mem_append.mp he with h1 | h2
  · rcases List.mem_flatMap.mp h1 with ⟨kv, _, hkv⟩
    rcases List.mem_flatMap.mp hkv with ⟨i, _, hi⟩
    revert hi
    split
    · intro hi
      rw [List.mem_singleton.mp hi]
      rfl
    · intro hi
      simp at hi
  · rcases List.mem_map.mp h2 with ⟨i, _, rfl⟩
    rfl

/-- C6 amended: the periodic persistence task and the MQTT publisher do
serialize on `counter_mutex` — every one of their counter accesses runs
with the lock held — but the configuration portal's handlers do not: all
counter reads and force-set/reset writes of `save_post_handler` and all
reads of `config_get_handler` run with the mutex never held. -/
theorem C6_amended_lock_usage (fields : List (String × String)) :
    accessesLocked task_counter_accesses ∧
    accessesLocked task_mqtt_accesses ∧
    accessesUnlocked (save_post_accesses fields) ∧
    accessesUnlocked config_get_accesses := by
  have hscan : ∀ e ∈ (List.range NB_COUNTERS).map AccEv.rd,
      isTakeA e = false ∧ isGiveA e = false := by
    intro e hmem
    rcases List.mem_map.mp hmem with ⟨i, _, rfl⟩
    exact ⟨rfl, rfl⟩
  refine ⟨?_, ?_, ?_, ?_⟩
  · intro k i h
    exact heldA_mid _ hscan k i h
  · intro k i h
    exact heldA_mid _ hscan k i h
  · intro k
    exact heldA_eq_false_of_no_take _ (save_post_accesses_no_take fields) k
  · intro k
    refine heldA_eq_false_of_no_take _ ?_ k
    intro e hmem
    rcases List.mem_map.mp hmem with ⟨i, _, rfl⟩
    rfl

/-- Witness for the amended C6: the persistence task's first counter read
runs with the mutex held; the save handler's counter write does not. -/
theorem C6_amended_lock_usage_witness :
    heldA task_counter_accesses 1 = true ∧
    heldA (save_post_accesses [(ckey 1, "7")]) 0 = false :=
  ⟨(C6_amended_lock_usage []).1 1 0 (Or.inl (by decide)),
   (C6_amended_lock_usage [(ckey 1, "7")]).2.2.1 0⟩

/-! ## Startup NVS load (`nvs_init_and_load`, storage.c — claims C7, C9) -/

/-- Result of one NVS read (`nvs_get_u32` / `nvs_get_str`): success,
`ESP_ERR_NVS_NOT_FOUND`, or any other error code. -/
inductive NvsGet (α : Type) where
  | ok (v : α)
  | notFound : NvsGet α
  | err : NvsGet α
deriving DecidableEq

/-- Generic evaluation of a left fold that assigns exactly index `i` on
the iteration for `i`. -/
theorem foldl_update_pointwise {α : Type} (f : Nat → α) (L : List Nat)
    (init : Nat → α) (j : Nat) :
    (L.foldl (fun cs i => Function.update cs i (f i)) init) j
      = if j ∈ L then f j else init j := by
  induction L generalizing init with
  | nil => simp
  | cons a L ih =>
    rw [List.foldl_cons, ih]
    by_cases hjL : j ∈ L
    · simp [hjL]
    · by_cases hja : j = a
      · subst hja
        simp [hjL, Function.update_same]
      · simp [hjL, hja, Function.update_noteq hja]

/-- Counter part of `nvs_init_and_load`: if `nvs_open("counters", ...)`
fails, the whole loading loop is skipped and `counters` keeps its static
initializer `{0}`; otherwise each key `c<i>` is read with `nvs_get_u32`:
on success the read value is assigned, on `ESP_ERR_NVS_NOT_FOUND` or on
any other error the counter is set to 0 — and loading continues, the
routine never aborts boot. -/
def load_counters (openRes : Option (Nat → NvsGet Nat)) : Nat → Nat :=
  match openRes with
  | none => fun _ => 0
  | some get =>
    (List.range NB_COUNTERS).foldl
      (fun cs i => Function.update cs i
        (match get i with
         | .ok v => v
         | .notFound => 0
         | .err => 0))
      (fun _ => 0)

/-- C7: for every channel `i`, the startup load yields the stored value
of key `c<i>` when the read succeeds, 0 when the key is not found, 0 on
any other read error, and 0 when opening the `counters` namespace itself
fails — the load is total (fail-safe), never aborting. -/
theorem C7_load_counters_spec (openRes : Option (Nat → NvsGet Nat)) (i : Nat)
    (hi : i < NB_COUNTERS) :
    (openRes = none → load_counters openRes i = 0) ∧
    (∀ get v, openRes = some get → get i = NvsGet.ok v →
      load_counters openRes i = v) ∧
    (∀ get, openRes = some get → get i = NvsGet.notFound →
      load_counters openRes i = 0) ∧
    (∀ get, openRes = some get → get i = NvsGet.err →
      load_counters openRes i = 0) := by
  have hmem : i ∈ List.range NB_COUNTERS := List.mem_range.mpr hi
  refine ⟨?_, ?_, ?_, ?_⟩
  · intro h
    subst h
    rfl
  · intro get v h hv
    subst h
    rw [show load_counters (some get) i
        = ((List.range NB_COUNTERS).foldl
            (fun cs i => Function.update cs i
              (match get i with
               | .ok v => v
               | .notFound => 0
               | .err => 0)) (fun _ => 0)) i from rfl,
      foldl_update_pointwise, if_pos hmem, hv]
  · intro get h hv
    subst h
    rw [show load_counters (some get) i
        = ((List.range NB_COUNTERS).foldl
            (fun cs i => Function.update cs i
              (match get i with
               | .ok v => v
               | .notFound => 0
               | .err => 0)) (fun _ => 0)) i from rfl,
      foldl_update_pointwise, if_pos hmem, hv]
  · intro get h hv
    subst h
    rw [show load_counters (some get) i
        = ((List.range NB_COUNTERS).foldl
            (fun cs i => Function.update cs i
              (match get i with
               | .ok v => v
               | .notFound => 0
               | .err => 0)) (fun _ => 0)) i from rfl,
      foldl_update_pointwise, if_pos hmem, hv]

/-- Witness for C7: a store where `c0` holds 42, `c1` is missing and `c2`
errors, loaded with a successfully opened namespace. -/
theorem C7_load_counters_spec_witness :
    load_counters (some fun j => if j = 0 then NvsGet.ok 42
      else if j = 1 then NvsGet.notFound else NvsGet.err) 0 = 42 ∧
    load_counters (some fun j => if j = 0 then NvsGet.ok 42
      else if j = 1 then NvsGet.notFound else NvsGet.err) 1 = 0 ∧
    load_counters (some fun j => if j = 0 then NvsGet.ok 42
      else if j = 1 then NvsGet.notFound else NvsGet.err) 2 = 0 ∧
    load_counters none 3 = 0 := by
  refine ⟨?_, ?_, ?_, ?_⟩
  · exact (C7_load_counters_spec _ 0 (by decide)).2.1 _ 42 rfl (by decide)
  · exact (C7_load_counters_spec _ 1 (by decide)).2.2.1 _ rfl (by decide)
  · exact (C7_load_counters_spec _ 2 (by decide)).2.2.2 _ rfl (by decide)
  · exact (C7_load_counters_spec none 3 (by decide)).1 rfl

/-- Overwrite the first byte of a C string buffer (`buf[0] = c`); the
rest of the buffer is untouched. -/
def setChar0 (s : String) (c : Char) : String :=
  match s.data with
  | [] => s
  | _ :: rest => String.mk (c :: rest)

/-- Compile-time fallback default display name of channel `i`: the static
initializer of `mqtt_names` in storage.c (`"compteur0"`, ...). -/
def default_mqtt_name (i : Nat) : String := "compteur" ++ toString i

/-- Display-name part of `nvs_init_and_load` for one channel: a
successful `nvs_get_str` of key `m<i>` replaces the buffer with the
stored string; on `ESP_ERR_NVS_NOT_FOUND` or any other error the code
executes `mqtt_names[i][0] = ' '`, overwriting the first byte of the
compile-time default with a space and keeping the tail. -/
def load_name (dflt : String) (res : NvsGet String) : String :=
  match res with
  | .ok v => v
  | .notFound => setChar0 dflt ' '
  | .err => setChar0 dflt ' '

/-- C9 (code bug): when key `m0` is absent, the loaded display name is
`" ompteur0"` — the compile-time default with its first character
clobbered by a space — not the fallback default `"compteur0"` the spec
(and the code's own comment, "Vide si non trouvé") intends.  The same
holds on a read error. -/
theorem C9_name_fallback_bug :
    load_name (default_mqtt_name 0) NvsGet.notFound = " ompteur0" ∧
    load_name (default_mqtt_name 0) NvsGet.err = " ompteur0" ∧
    load_name (default_mqtt_name 0) NvsGet.notFound ≠ default_mqtt_name 0 := by
  refine ⟨by decide, by decide, by decide⟩

/-! ## Read-back of the save handler (claims C8, C10) -/

/-- The value of channel `i` handed out to readers: `config_get_handler`
renders `counters[i]` into the form, `task_mqtt` publishes it. -/
def read_counter (s : SysState) (i : Nat) : Nat := s.counters i

theorem applyCounterField_self (cs : Nat → Nat) (i : Nat) (hi : i < NB_COUNTERS)
    (d : String) :
    applyCounterField cs (ckey i) d
      = if d = "" then Function.update cs i 0
        else Function.update cs i (strtoul10 d) := by
  have hi5 : i < 5 := hi
  interval_cases i <;> rfl

/-- C8: submitting the configuration-save command with field `c<i>`
carrying a (non-empty) decimal payload that parses to `v` and then
immediately reading channel `i` — no persistence run, no confirmed pulse
in between — returns exactly `v`. -/
theorem C8_forceset_then_read (s : SysState) (i v : Nat) (d : String)
    (hi : i < NB_COUNTERS) (hd : d ≠ "") (hv : strtoul10 d = v) :
    read_counter (save_post_apply s [(ckey i, d)]) i = v := by
  rw [show read_counter (save_post_apply s [(ckey i, d)]) i
      = applyCounterField s.counters (ckey i) d i from rfl]
  rw [applyCounterField_self s.counters i hi d, if_neg hd, Function.update_same, hv]

/-- Witness for C8: force-set channel 0 to 42 and read it back. -/
theorem C8_forceset_then_read_witness :
    read_counter
      (save_post_apply ⟨fun _ => 3, fun _ => 0, fun _ => 0, []⟩ [(ckey 0, "42")]) 0 = 42 :=
  C8_forceset_then_read ⟨fun _ => 3, fun _ => 0, fun _ => 0, []⟩ 0 42 "42"
    (by decide) (by decide) (by decide)

/-- C10: a submitted counter field `c<i>` whose URL-decoded value is the
empty string sets `counters[i]` to 0 — the handler treats it as an
explicit reset rather than leaving the counter unchanged or rejecting the
request. -/
theorem C10_empty_field_resets (s : SysState) (i : Nat) (hi : i < NB_COUNTERS) :
    read_counter (save_post_apply s [(ckey i, "")]) i = 0 := by
  rw [show read_counter (save_post_apply s [(ckey i, "")]) i
      = applyCounterField s.counters (ckey i) "" i from rfl]
  rw [applyCounterField_self s.counters i hi "", if_pos rfl, Function.update_same]

/-- Witness for C10: an empty `c2` field zeroes channel 2 that held 987. -/
theorem C10_empty_field_resets_witness :
    read_counter
      (save_post_apply ⟨fun _ => 987, fun _ => 0, fun _ => 0, []⟩ [(ckey 2, "")]) 2 = 0 :=
  C10_empty_field_resets ⟨fun _ => 987, fun _ => 0, fun _ => 0, []⟩ 2 (by decide)

end EnergyCounters
